import Mathlib

/-!
Shallow embedding of the cTrader connection pool and data mapper
(`src/services/ctrader/services/ctrader_connection_pool.py` and
`src/services/ctrader/services/ctrader_data_mapper.py`).

Modelling conventions:
* Python `datetime` instants are logical clock values in milliseconds
  (`Nat`); `is_cache_valid(max_age_seconds)` therefore compares against
  `max_age_seconds * 1000`.
* Python dicts are insertion-ordered association lists; `dictSet` is
  `d[k] = v` (update in place, else append), `dictDel` is `del d[k]`,
  `dictGet` is `d.get(k)`.
* Python dict keys in the per-session caches are either protobuf integer
  ids or HTTP string parameters; `PyKey` keeps both, and Python equality
  never identifies an int with a str.
* Vendor SDK calls (`client.send`, the connect handshake) are oracle
  arguments of type `Except _ _`: `.error` is the call raising.  All
  exception control flow of the source is rendered with `Except`.
* The embedding follows the real-API path (`HAS_CTRADER_API = True`);
  the mock fallback branches taken when the vendor SDK fails to import
  are not modelled.
* `vendorCalls` is a ghost observation counter incremented exactly where
  the source performs a data-plane `conn.client.send(...)`; it exists
  only to state "no second vendor call" properties.
-/

namespace FxTrueUp

/-- A Python dict key that is either an int (protobuf ids such as
`positionId`) or a str (HTTP path/body parameters). -/
inductive PyKey where
  | intKey (i : Int)
  | strKey (s : String)
deriving DecidableEq, Repr

/-- A vendor position record; only the fields the pool logic inspects are
kept (`positionId` is the cache key), the rest is opaque payload. -/
structure Position where
  positionId : Int
  payload : Nat
deriving DecidableEq, Repr

/-- A vendor pending-order record, cached by `orderId`. -/
structure OrderRec where
  orderId : Int
  payload : Nat
deriving DecidableEq, Repr

/-- One entry of the symbol-mapping config (`symbols.json`): the vendor id
plus opaque trade metadata. -/
structure SymbolInfo where
  cTraderId : Int
  tickValue : Nat
deriving DecidableEq, Repr

/-- `d.get(k)` on an insertion-ordered dict. -/
def dictGet {α β : Type} [DecidableEq α] : List (α × β) → α → Option β
  | [], _ => none
  | (k', v) :: rest, k => if k' = k then some v else dictGet rest k

/-- `d[k] = v` on an insertion-ordered dict: update in place if the key is
present, otherwise append. -/
def dictSet {α β : Type} [DecidableEq α] : List (α × β) → α → β → List (α × β)
  | [], k, v => [(k, v)]
  | (k', v') :: rest, k, v =>
      if k' = k then (k, v) :: rest else (k', v') :: dictSet rest k v

/-- `del d[k]` on an insertion-ordered dict (keys are unique, so removing
the first occurrence is removal of the entry). -/
def dictDel {α β : Type} [DecidableEq α] : List (α × β) → α → List (α × β)
  | [], _ => []
  | (k', v') :: rest, k => if k' = k then rest else (k', v') :: dictDel rest k

/-- `CTraderDataMapper`: the symbol mapping loaded from config plus the
derived reverse mapping (vendor id to entry-plus-neutral-symbol). -/
structure DataMapper where
  symbol_mapping : List (String × SymbolInfo)
  reverse_symbol_mapping : List (Int × (SymbolInfo × String))
deriving DecidableEq, Repr

/-- `CTraderDataMapper.load_symbol_mapping`: store the configured
neutral-to-vendor dict and build the reverse dict by iterating it in
insertion order (`self.reverse_symbol_mapping[mapping['cTraderId']] =
{**mapping, 'mt5Symbol': mt5_symbol}`, so a repeated vendor id is
overwritten by the later entry). -/
def load_symbol_mapping (config : List (String × SymbolInfo)) : DataMapper :=
  { symbol_mapping := config,
    reverse_symbol_mapping :=
      config.foldl (fun rev kv => dictSet rev kv.2.cTraderId (kv.2, kv.1)) [] }

/-- `CTraderDataMapper.get_symbol_mapping`: neutral symbol to vendor entry. -/
def get_symbol_mapping (m : DataMapper) (mt5_symbol : String) : Option SymbolInfo :=
  dictGet m.symbol_mapping mt5_symbol

/-- Reverse direction used by `map_position`/`map_price_data`: vendor id to
the recorded `mt5Symbol`. -/
def reverse_symbol (m : DataMapper) (symbolId : Int) : Option String :=
  (dictGet m.reverse_symbol_mapping symbolId).map (fun e => e.2)

/-- `CTraderConnectionWrapper`: one session.  `cache_timestamp` is the
single timestamp field the source shares between the positions, orders and
account-info caches. -/
structure Conn where
  account_id : String
  environment : String
  is_connected : Bool
  last_used : Nat
  connection_count : Nat
  error_count : Nat
  positions_cache : List (PyKey × Position)
  orders_cache : List (PyKey × OrderRec)
  account_info_cache : Option Nat
  cache_timestamp : Option Nat
deriving DecidableEq, Repr

/-- `CTraderConnectionWrapper.__init__`: disconnected, `last_used = now`,
empty caches, no timestamp. -/
def mkConn (account_id environment : String) (now : Nat) : Conn :=
  { account_id := account_id, environment := environment,
    is_connected := false, last_used := now,
    connection_count := 0, error_count := 0,
    positions_cache := [], orders_cache := [],
    account_info_cache := none, cache_timestamp := none }

/-- `CTraderConnectionWrapper.is_cache_valid(max_age_seconds)`: absent
timestamp is invalid, else `(now - cache_timestamp).total_seconds() <
max_age_seconds` (times in milliseconds here). -/
def Conn.is_cache_valid (c : Conn) (max_age_seconds : Nat) (now : Nat) : Bool :=
  match c.cache_timestamp with
  | none => false
  | some ts => now - ts < max_age_seconds * 1000

/-- `CTraderConnectionPool`: the key-to-session dict, configuration, the
`stats` defaultdict counters (flattened), the mapper, and the ghost vendor
call counter. -/
structure Pool where
  connections : List (String × Conn)
  max_connections : Nat
  idle_timeout : Nat
  connections_created : Nat
  connections_reused : Nat
  trades_executed : Nat
  errors : Nat
  data_mapper : DataMapper
  vendorCalls : Nat
deriving DecidableEq, Repr

/-- `CTraderConnectionPool.__init__` (with a given loaded mapper config). -/
def mkPool (max_connections : Nat) (config : List (String × SymbolInfo)) : Pool :=
  { connections := [], max_connections := max_connections, idle_timeout := 300,
    connections_created := 0, connections_reused := 0,
    trades_executed := 0, errors := 0,
    data_mapper := load_symbol_mapping config, vendorCalls := 0 }

/-- The fold step of `_remove_oldest_idle_connection`'s scan:
`if conn.last_used < oldest_time: oldest_time, oldest_key = ...`. -/
def oldestStep (acc : Option String × Nat) (kc : String × Conn) : Option String × Nat :=
  if kc.2.last_used < acc.2 then (some kc.1, kc.2.last_used) else acc

/-- The scan of `_remove_oldest_idle_connection`: starting from
`oldest_key = None, oldest_time = datetime.now()`, keep the key of the
entry whose `last_used` strictly improves the running minimum. -/
def oldestKey (conns : List (String × Conn)) (now : Nat) : Option String :=
  (conns.foldl oldestStep ((none : Option String), now)).1

/-- `CTraderConnectionPool._remove_oldest_idle_connection`: if the scan
found a key, disconnect that session and delete it from the dict (the
disconnect only mutates the removed entry, so only the deletion is
observable). -/
def remove_oldest_idle_connection (conns : List (String × Conn)) (now : Nat) :
    List (String × Conn) :=
  match oldestKey conns now with
  | none => conns
  | some k => dictDel conns k

/-- The capacity check of `get_connection`: when the dict has reached
`max_connections`, run `_remove_oldest_idle_connection`. -/
def capacityEvict (p : Pool) (now : Nat) : Pool :=
  if p.connections.length ≥ p.max_connections
  then { p with connections := remove_oldest_idle_connection p.connections now }
  else p

/-- The creation half of `get_connection` (everything after the reuse
lookup): capacity check with LRU eviction, then
`CTraderConnectionWrapper` construction and either a credentialed
`connect` (whose handshake outcome is the oracle `connectOk`; on failure
the exception propagates, nothing is inserted and no counter moves) or
the credential-less branch that just marks the wrapper connected without
touching `connections_created`. -/
def createConnection (p : Pool) (account_id environment : String)
    (hasCreds connectOk : Bool) (now : Nat) : Pool × Except Unit Conn :=
  if hasCreds then
    if connectOk then
      ({ capacityEvict p now with
           connections := dictSet (capacityEvict p now).connections
             (account_id ++ "_" ++ environment)
             { mkConn account_id environment now with
                 is_connected := true, connection_count := 1 },
           connections_created := (capacityEvict p now).connections_created + 1 },
       .ok { mkConn account_id environment now with
               is_connected := true, connection_count := 1 })
    else
      (capacityEvict p now, .error ())
  else
    ({ capacityEvict p now with
         connections := dictSet (capacityEvict p now).connections
           (account_id ++ "_" ++ environment)
           { mkConn account_id environment now with is_connected := true } },
     .ok { mkConn account_id environment now with is_connected := true })

/-- `CTraderConnectionPool.get_connection`: reuse a connected entry for
the key (refresh `last_used`, bump the reuse counter), drop a
disconnected entry and fall through to creation, else create.
`hasCreds` stands for `access_token and ctid_account_id` both supplied. -/
def get_connection (p : Pool) (account_id environment : String)
    (hasCreds connectOk : Bool) (now : Nat) : Pool × Except Unit Conn :=
  match dictGet p.connections (account_id ++ "_" ++ environment) with
  | some conn =>
    if conn.is_connected then
      ({ p with connections := dictSet p.connections
                  (account_id ++ "_" ++ environment) { conn with last_used := now },
                connections_reused := p.connections_reused + 1 },
       .ok { conn with last_used := now })
    else
      createConnection
        { p with connections := dictDel p.connections (account_id ++ "_" ++ environment) }
        account_id environment hasCreds connectOk now
  | none => createConnection p account_id environment hasCreds connectOk now

/-- `CTraderConnectionPool.get_positions` (real-API path): get a
connection (no credentials are passed down), serve the positions cache
when it is non-empty and `is_cache_valid(1)`, else `client.send` a
reconcile request (the oracle `send`); on success rebuild
`positions_cache` keyed by the protobuf integer `positionId` and stamp
the shared `cache_timestamp`; on a raised vendor error count it and
return `[]`. -/
def get_positions (p : Pool) (account_id environment : String)
    (send : Except Unit (List Position)) (now : Nat) : Pool × List Position :=
  match get_connection p account_id environment false false now with
  | (p1, .error _) => ({ p1 with errors := p1.errors + 1 }, [])
  | (p1, .ok conn) =>
    if !conn.positions_cache.isEmpty && conn.is_cache_valid 1 now then
      (p1, conn.positions_cache.map (fun kv => kv.2))
    else
      match send with
      | .ok poss =>
        let cache := poss.foldl
          (fun d pos => dictSet d (PyKey.intKey pos.positionId) pos) []
        let conn' := { conn with positions_cache := cache, cache_timestamp := some now }
        ({ p1 with connections := dictSet p1.connections
                     (account_id ++ "_" ++ environment) conn',
                   vendorCalls := p1.vendorCalls + 1 },
         cache.map (fun kv => kv.2))
      | .error _ =>
        ({ p1 with errors := p1.errors + 1, vendorCalls := p1.vendorCalls + 1 }, [])

/-- `CTraderConnectionPool.get_orders` (real-API path): same shape as
`get_positions` with the orders cache, window 1 second, and the same
shared `cache_timestamp` field. -/
def get_orders (p : Pool) (account_id environment : String)
    (send : Except Unit (List OrderRec)) (now : Nat) : Pool × List OrderRec :=
  match get_connection p account_id environment false false now with
  | (p1, .error _) => ({ p1 with errors := p1.errors + 1 }, [])
  | (p1, .ok conn) =>
    if !conn.orders_cache.isEmpty && conn.is_cache_valid 1 now then
      (p1, conn.orders_cache.map (fun kv => kv.2))
    else
      match send with
      | .ok ords =>
        let cache := ords.foldl
          (fun d o => dictSet d (PyKey.intKey o.orderId) o) []
        let conn' := { conn with orders_cache := cache, cache_timestamp := some now }
        ({ p1 with connections := dictSet p1.connections
                     (account_id ++ "_" ++ environment) conn',
                   vendorCalls := p1.vendorCalls + 1 },
         cache.map (fun kv => kv.2))
      | .error _ =>
        ({ p1 with errors := p1.errors + 1, vendorCalls := p1.vendorCalls + 1 }, [])

/-- The vendor-format order produced by the mapper; only the fields the
pool reads back are kept. -/
structure CtraderOrder where
  symbolId : Int
  volume : Nat
deriving DecidableEq, Repr

/-- The neutral order specification passed to `execute_trade`. -/
structure TradeData where
  symbol : String
  volume : Nat
deriving DecidableEq, Repr

/-- `CTraderDataMapper.map_order_request`: a missing symbol mapping raises
`ValueError(f"Unknown symbol: {symbol}")`; otherwise build the vendor
order (volume in vendor units is 100 times the neutral lots). -/
def map_order_request (m : DataMapper) (metaapi_order : TradeData) :
    Except String CtraderOrder :=
  match dictGet m.symbol_mapping metaapi_order.symbol with
  | none => .error ("Unknown symbol: " ++ metaapi_order.symbol)
  | some info => .ok { symbolId := info.cTraderId, volume := metaapi_order.volume * 100 }

/-- The result dict of `execute_trade`. -/
structure TradeResult where
  success : Bool
  error : Option String
  orderId : Option String
deriving DecidableEq, Repr

/-- `CTraderConnectionPool.execute_trade` (real-API path): everything runs
inside one `try`; the mapper's unknown-symbol `ValueError` and any vendor
`send` failure are caught and turned into `{'success': False, 'error':
str(e)}` with the `errors` counter bumped; only a successful send bumps
`trades_executed`. -/
def execute_trade (p : Pool) (account_id environment : String)
    (trade_data : TradeData) (send : Except String Nat) (now : Nat) :
    Pool × TradeResult :=
  match get_connection p account_id environment false false now with
  | (p1, .error _) =>
    ({ p1 with errors := p1.errors + 1 },
     { success := false, error := some "connection error", orderId := none })
  | (p1, .ok _conn) =>
    match map_order_request p1.data_mapper trade_data with
    | .error e =>
      ({ p1 with errors := p1.errors + 1 },
       { success := false, error := some e, orderId := none })
    | .ok _order =>
      match send with
      | .ok oid =>
        ({ p1 with trades_executed := p1.trades_executed + 1,
                   vendorCalls := p1.vendorCalls + 1 },
         { success := true, error := none, orderId := some (toString oid) })
      | .error e =>
        ({ p1 with errors := p1.errors + 1, vendorCalls := p1.vendorCalls + 1 },
         { success := false, error := some e, orderId := none })

/-- Decimal digit value of a character, or `none`. -/
def digitVal (c : Char) : Option Nat :=
  if '0' ≤ c ∧ c ≤ '9' then some (c.toNat - '0'.toNat) else none

/-- Accumulate decimal digits; `none` on a non-digit or on no digits. -/
def parseDigits : List Char → Option Nat → Option Nat
  | [], acc => acc
  | c :: cs, acc =>
    match digitVal c with
    | none => none
    | some d => parseDigits cs (some ((acc.getD 0) * 10 + d))

/-- Python `int(s)` on the id strings that occur here: an optional sign
followed by decimal digits; anything else raises `ValueError` (`none`). -/
def pyInt (s : String) : Option Int :=
  match s.data with
  | '-' :: cs => (parseDigits cs none).map (fun n => -(n : Int))
  | cs => (parseDigits cs none).map (fun n => (n : Int))

/-- `CTraderConnectionPool.modify_position` (real-API path):
`int(position_id)` raising, or the vendor amend `send` raising, is caught
by the surrounding `except`, which bumps `errors` and returns `False`;
a successful amend returns `True`. -/
def modify_position (p : Pool) (account_id environment position_id : String)
    (send : Except Unit Unit) (now : Nat) : Pool × Bool :=
  match get_connection p account_id environment false false now with
  | (p1, .error _) => ({ p1 with errors := p1.errors + 1 }, false)
  | (p1, .ok _conn) =>
    match pyInt position_id with
    | none => ({ p1 with errors := p1.errors + 1 }, false)
    | some _pid =>
      match send with
      | .ok _ => ({ p1 with vendorCalls := p1.vendorCalls + 1 }, true)
      | .error _ =>
        ({ p1 with errors := p1.errors + 1, vendorCalls := p1.vendorCalls + 1 }, false)

/-- `CTraderConnectionPool.close_position` (real-API path): after a
successful vendor close, the source runs
`if position_id in conn.positions_cache: del conn.positions_cache[position_id]`
with the *string* `position_id`, even though the cache written by
`get_positions` is keyed by the protobuf *integer* id. -/
def close_position (p : Pool) (account_id environment position_id : String)
    (send : Except Unit Unit) (now : Nat) : Pool × Bool :=
  match get_connection p account_id environment false false now with
  | (p1, .error _) => ({ p1 with errors := p1.errors + 1 }, false)
  | (p1, .ok conn) =>
    match pyInt position_id with
    | none => ({ p1 with errors := p1.errors + 1 }, false)
    | some _pid =>
      match send with
      | .error _ =>
        ({ p1 with errors := p1.errors + 1, vendorCalls := p1.vendorCalls + 1 }, false)
      | .ok _ =>
        let cache :=
          if (dictGet conn.positions_cache (PyKey.strKey position_id)).isSome then
            dictDel conn.positions_cache (PyKey.strKey position_id)
          else conn.positions_cache
        let conn' := { conn with positions_cache := cache }
        ({ p1 with connections := dictSet p1.connections
                     (account_id ++ "_" ++ environment) conn',
                   vendorCalls := p1.vendorCalls + 1 }, true)

/-- The dict returned by `get_stats`; the division is exact rational
arithmetic standing in for Python float division. -/
structure PoolStatsOut where
  connectionsCreated : Nat
  connectionsReused : Nat
  tradesExecuted : Nat
  errors : Nat
  activeConnections : Nat
  reuseFraction : ℚ
deriving DecidableEq, Repr

/-- `CTraderConnectionPool.get_stats`: the counters, the live session
count, and `reused / max(1, created)` (the source's reuse-ratio field,
named `reuseFraction` here). -/
def get_stats (p : Pool) : PoolStatsOut :=
  { connectionsCreated := p.connections_created,
    connectionsReused := p.connections_reused,
    tradesExecuted := p.trades_executed,
    errors := p.errors,
    activeConnections := p.connections.length,
    reuseFraction := (p.connections_reused : ℚ) / (max 1 p.connections_created : ℚ) }

/-- One `get_connection` request of a trace: the key parts, whether
credentials were supplied, the handshake oracle, and the call time. -/
structure Request where
  account_id : String
  environment : String
  hasCreds : Bool
  connectOk : Bool
  time : Nat
deriving DecidableEq, Repr

/-- Run a sequence of `get_connection` calls; each caller catches or
propagates its own exception, the pool state simply carries over. -/
def runGetConnections (p : Pool) (reqs : List Request) : Pool :=
  reqs.foldl (fun q r =>
    (get_connection q r.account_id r.environment r.hasCreds r.connectOk r.time).1) p

/-- Call times of a trace are non-decreasing and strictly later than the
given start instant's past (each call strictly precedes the next). -/
def timesOk : Nat → List Request → Bool
  | _, [] => true
  | t, r :: rs => decide (t ≤ r.time) && timesOk (r.time + 1) rs

/-! ### Association-list (Python dict) lemmas -/

variable {α β : Type} [DecidableEq α]

theorem dictGet_dictSet_self (l : List (α × β)) (k : α) (v : β) :
    dictGet (dictSet l k v) k = some v := by
  induction l with
  | nil => simp [dictSet, dictGet]
  | cons kv rest ih =>
    obtain ⟨k', v'⟩ := kv
    by_cases h : k' = k
    · subst h; simp [dictSet, dictGet]
    · simp [dictSet, dictGet, h, ih]

theorem dictGet_dictSet_ne (l : List (α × β)) (k k' : α) (v : β) (h : k' ≠ k) :
    dictGet (dictSet l k v) k' = dictGet l k' := by
  induction l with
  | nil => simp [dictSet, dictGet, Ne.symm h]
  | cons kv rest ih =>
    obtain ⟨k₀, v₀⟩ := kv
    by_cases h0 : k₀ = k
    · subst h0
      simp [dictSet, dictGet, Ne.symm h]
    · simp only [dictSet, if_neg h0, dictGet]
      by_cases h1 : k₀ = k'
      · simp [h1]
      · simp [h1, ih]

theorem mem_dictSet (l : List (α × β)) (k : α) (v : β) (kv' : α × β)
    (h : kv' ∈ dictSet l k v) : kv' = (k, v) ∨ kv' ∈ l := by
  induction l with
  | nil => simpa [dictSet] using h
  | cons kv rest ih =>
    obtain ⟨k₀, v₀⟩ := kv
    by_cases h0 : k₀ = k
    · subst h0
      rcases (by simpa [dictSet] using h : kv' = (k₀, v) ∨ kv' ∈ rest) with h1 | h1
      · exact Or.inl h1
      · exact Or.inr (List.mem_cons_of_mem _ h1)
    · rcases (by simpa [dictSet, h0] using h :
        kv' = (k₀, v₀) ∨ kv' ∈ dictSet rest k v) with h1 | h1
      · exact Or.inr (by simp [h1])
      · rcases ih h1 with h2 | h2
        · exact Or.inl h2
        · exact Or.inr (List.mem_cons_of_mem _ h2)

theorem mem_keys_dictSet (l : List (α × β)) (k : α) (v : β) (a : α)
    (h : a ∈ (dictSet l k v).map Prod.fst) : a = k ∨ a ∈ l.map Prod.fst := by
  rcases List.mem_map.1 h with ⟨kv', hmem, rfl⟩
  rcases mem_dictSet l k v kv' hmem with h1 | h1
  · exact Or.inl (by rw [h1])
  · exact Or.inr (List.mem_map_of_mem _ h1)

theorem nodupKeys_dictSet (l : List (α × β)) (k : α) (v : β)
    (h : (l.map Prod.fst).Nodup) : ((dictSet l k v).map Prod.fst).Nodup := by
  induction l with
  | nil => simp [dictSet]
  | cons kv rest ih =>
    obtain ⟨k₀, v₀⟩ := kv
    simp only [List.map_cons, List.nodup_cons] at h
    by_cases h0 : k₀ = k
    · subst h0
      simpa [dictSet] using h
    · simp only [dictSet, if_neg h0, List.map_cons, List.nodup_cons]
      refine ⟨fun hmem => ?_, ih h.2⟩
      rcases mem_keys_dictSet rest k v k₀ hmem with h1 | h1
      · exact h0 h1
      · exact h.1 h1

theorem length_dictSet (l : List (α × β)) (k : α) (v : β) :
    (dictSet l k v).length =
      if (dictGet l k).isSome then l.length else l.length + 1 := by
  induction l with
  | nil => simp [dictSet, dictGet]
  | cons kv rest ih =>
    obtain ⟨k₀, v₀⟩ := kv
    by_cases h0 : k₀ = k
    · subst h0; simp [dictSet, dictGet]
    · simp only [dictSet, if_neg h0, dictGet, List.length_cons, ih]
      by_cases h1 : (dictGet rest k).isSome <;> simp [h0, h1]

theorem length_dictSet_le (l : List (α × β)) (k : α) (v : β) :
    (dictSet l k v).length ≤ l.length + 1 := by
  rw [length_dictSet]
  split <;> omega

theorem mem_dictDel (l : List (α × β)) (k : α) (kv' : α × β)
    (h : kv' ∈ dictDel l k) : kv' ∈ l := by
  induction l with
  | nil => simpa [dictDel] using h
  | cons kv rest ih =>
    obtain ⟨k₀, v₀⟩ := kv
    by_cases h0 : k₀ = k
    · subst h0
      exact List.mem_cons_of_mem _ (by simpa [dictDel] using h)
    · rcases (by simpa [dictDel, h0] using h :
        kv' = (k₀, v₀) ∨ kv' ∈ dictDel rest k) with h1 | h1
      · simp [h1]
      · exact List.mem_cons_of_mem _ (ih h1)

theorem nodupKeys_dictDel (l : List (α × β)) (k : α)
    (h : (l.map Prod.fst).Nodup) : ((dictDel l k).map Prod.fst).Nodup := by
  induction l with
  | nil => simp [dictDel]
  | cons kv rest ih =>
    obtain ⟨k₀, v₀⟩ := kv
    simp only [List.map_cons, List.nodup_cons] at h
    by_cases h0 : k₀ = k
    · subst h0; simpa [dictDel] using h.2
    · simp only [dictDel, if_neg h0, List.map_cons, List.nodup_cons]
      refine ⟨fun hmem => ?_, ih h.2⟩
      rcases List.mem_map.1 hmem with ⟨kv', hmem', rfl⟩
      exact h.1 (List.mem_map_of_mem _ (mem_dictDel rest k kv' hmem'))

theorem length_dictDel_le (l : List (α × β)) (k : α) :
    (dictDel l k).length ≤ l.length := by
  induction l with
  | nil => simp [dictDel]
  | cons kv rest ih =>
    obtain ⟨k₀, v₀⟩ := kv
    by_cases h0 : k₀ = k
    · subst h0
      have hd : dictDel ((k₀, v₀) :: rest) k₀ = rest := by simp [dictDel]
      rw [hd, List.length_cons]
      omega
    · simp only [dictDel, if_neg h0, List.length_cons]; omega

theorem length_dictDel_isSome (l : List (α × β)) (k : α)
    (h : (dictGet l k).isSome) : (dictDel l k).length + 1 = l.length := by
  induction l with
  | nil => simp [dictGet] at h
  | cons kv rest ih =>
    obtain ⟨k₀, v₀⟩ := kv
    by_cases h0 : k₀ = k
    · subst h0; simp [dictDel]
    · simp only [dictGet, if_neg h0] at h
      simp only [dictDel, if_neg h0, List.length_cons, ih h]

theorem dictGet_isSome_of_mem_keys (l : List (α × β)) (k : α)
    (h : k ∈ l.map Prod.fst) : (dictGet l k).isSome := by
  induction l with
  | nil => simp at h
  | cons kv rest ih =>
    obtain ⟨k₀, v₀⟩ := kv
    by_cases h0 : k₀ = k
    · simp [dictGet, h0]
    · simp only [List.map_cons, List.mem_cons] at h
      rcases h with h | h
      · exact absurd h.symm h0
      · simp only [dictGet, if_neg h0]
        exact ih h

theorem dictGet_eq_some_mem (l : List (α × β)) (k : α) (v : β)
    (h : dictGet l k = some v) : (k, v) ∈ l := by
  induction l with
  | nil => simp [dictGet] at h
  | cons kv rest ih =>
    obtain ⟨k₀, v₀⟩ := kv
    by_cases h0 : k₀ = k
    · subst h0
      have hd : dictGet ((k₀, v₀) :: rest) k₀ = some v₀ := by simp [dictGet]
      rw [hd] at h
      injection h with h
      subst h
      simp
    · simp only [dictGet, if_neg h0] at h
      exact List.mem_cons_of_mem _ (ih h)

theorem mem_dictGet_of_nodup (l : List (α × β)) (k : α) (v : β)
    (hnd : (l.map Prod.fst).Nodup) (h : (k, v) ∈ l) : dictGet l k = some v := by
  induction l with
  | nil => simp at h
  | cons kv rest ih =>
    obtain ⟨k₀, v₀⟩ := kv
    simp only [List.map_cons, List.nodup_cons] at hnd
    rcases List.mem_cons.1 h with h1 | h1
    · have h2 : k = k₀ := congrArg Prod.fst h1
      have h3 : v = v₀ := congrArg Prod.snd h1
      subst h2; subst h3
      simp [dictGet]
    · by_cases h0 : k₀ = k
      · subst h0
        exact absurd (List.mem_map_of_mem Prod.fst h1) hnd.1
      · simp only [dictGet, if_neg h0]
        exact ih hnd.2 h1

theorem dictGet_dictDel_self (l : List (α × β)) (k : α)
    (hnd : (l.map Prod.fst).Nodup) : dictGet (dictDel l k) k = none := by
  induction l with
  | nil => simp [dictDel, dictGet]
  | cons kv rest ih =>
    obtain ⟨k₀, v₀⟩ := kv
    simp only [List.map_cons, List.nodup_cons] at hnd
    by_cases h0 : k₀ = k
    · subst h0
      have hd : dictDel ((k₀, v₀) :: rest) k₀ = rest := by simp [dictDel]
      rw [hd]
      cases hg : dictGet rest k₀ with
      | none => rfl
      | some v =>
        exact absurd (List.mem_map_of_mem Prod.fst (dictGet_eq_some_mem rest k₀ v hg)) hnd.1
    · simp only [dictDel, if_neg h0, dictGet, if_neg h0]
      exact ih hnd.2

theorem dictGet_dictDel_ne (l : List (α × β)) (k k' : α) (h : k' ≠ k) :
    dictGet (dictDel l k) k' = dictGet l k' := by
  induction l with
  | nil => simp [dictDel]
  | cons kv rest ih =>
    obtain ⟨k₀, v₀⟩ := kv
    by_cases h0 : k₀ = k
    · subst h0
      simp [dictDel, dictGet, Ne.symm h]
    · simp only [dictDel, if_neg h0, dictGet]
      by_cases h1 : k₀ = k' <;> simp [h1, ih]

theorem dictGet_none_dictDel (l : List (α × β)) (k k' : α)
    (h : dictGet l k' = none) : dictGet (dictDel l k) k' = none := by
  cases hg : dictGet (dictDel l k) k' with
  | none => rfl
  | some v =>
    have hmem := mem_dictDel l k _ (dictGet_eq_some_mem _ _ _ hg)
    have := dictGet_isSome_of_mem_keys l k' (List.mem_map_of_mem Prod.fst hmem)
    rw [h] at this
    simp at this

/-! ### Lemmas about the LRU scan of `_remove_oldest_idle_connection` -/

theorem oldestFold_snd_le (l : List (String × Conn)) (acc : Option String × Nat) :
    (l.foldl oldestStep acc).2 ≤ acc.2 ∧
    ∀ kc ∈ l, (l.foldl oldestStep acc).2 ≤ kc.2.last_used := by
  induction l generalizing acc with
  | nil => simp
  | cons kc rest ih =>
    have hstep : (oldestStep acc kc).2 ≤ acc.2 ∧ (oldestStep acc kc).2 ≤ kc.2.last_used := by
      unfold oldestStep
      split <;> simp <;> omega
    obtain ⟨ih1, ih2⟩ := ih (oldestStep acc kc)
    refine ⟨le_trans ih1 hstep.1, ?_⟩
    intro kc' hmem
    rcases List.mem_cons.1 hmem with h | h
    · subst h
      exact le_trans ih1 hstep.2
    · exact ih2 kc' h

theorem oldestFold_cases (l : List (String × Conn)) (acc : Option String × Nat) :
    l.foldl oldestStep acc = acc ∨
    ∃ kc ∈ l, l.foldl oldestStep acc = (some kc.1, kc.2.last_used) := by
  induction l generalizing acc with
  | nil => exact Or.inl rfl
  | cons kc rest ih =>
    rcases ih (oldestStep acc kc) with h | ⟨kc', hmem, h⟩
    · rw [List.foldl_cons, h]
      unfold oldestStep
      split
      · exact Or.inr ⟨kc, List.mem_cons_self .., rfl⟩
      · exact Or.inl rfl
    · exact Or.inr ⟨kc', List.mem_cons_of_mem _ hmem, by rw [List.foldl_cons, h]⟩

/-- When the dict is non-empty and every `last_used` is strictly in the
past (as `datetime.now()` guarantees), the scan finds a key, that key is
in the dict, and its session has the minimal `last_used`. -/
theorem oldestKey_spec (conns : List (String × Conn)) (now : Nat)
    (hne : conns ≠ []) (hall : ∀ kc ∈ conns, kc.2.last_used < now) :
    ∃ k c, oldestKey conns now = some k ∧ (k, c) ∈ conns ∧
      ∀ kc ∈ conns, c.last_used ≤ kc.2.last_used := by
  rcases oldestFold_cases conns ((none : Option String), now) with h | ⟨kc, hmem, h⟩
  · obtain ⟨kc₀, rest, rfl⟩ := List.exists_cons_of_ne_nil hne
    have hle := (oldestFold_snd_le (kc₀ :: rest) ((none : Option String), now)).2
      kc₀ (List.mem_cons_self ..)
    rw [h] at hle
    exact absurd (lt_of_le_of_lt hle (hall kc₀ (List.mem_cons_self ..))) (lt_irrefl now)
  · refine ⟨kc.1, kc.2, ?_, by simpa using hmem, ?_⟩
    · unfold oldestKey
      rw [h]
    · intro kc' hmem'
      have := (oldestFold_snd_le conns ((none : Option String), now)).2 kc' hmem'
      rw [h] at this
      exact this

/-- `_remove_oldest_idle_connection` on such a dict deletes exactly one
entry, one whose `last_used` is minimal. -/
theorem remove_oldest_spec (conns : List (String × Conn)) (now : Nat)
    (hne : conns ≠ []) (hall : ∀ kc ∈ conns, kc.2.last_used < now) :
    ∃ k c, (k, c) ∈ conns ∧ (∀ kc ∈ conns, c.last_used ≤ kc.2.last_used) ∧
      remove_oldest_idle_connection conns now = dictDel conns k ∧
      (remove_oldest_idle_connection conns now).length + 1 = conns.length := by
  obtain ⟨k, c, hkey, hmem, hmin⟩ := oldestKey_spec conns now hne hall
  refine ⟨k, c, hmem, hmin, ?_, ?_⟩
  · unfold remove_oldest_idle_connection
    rw [hkey]
  · unfold remove_oldest_idle_connection
    rw [hkey]
    exact length_dictDel_isSome conns k
      (dictGet_isSome_of_mem_keys conns k (List.mem_map_of_mem Prod.fst hmem))

/-! ### Field-stability lemmas for `get_connection` -/

theorem capacityEvict_stable (p : Pool) (now : Nat) :
    (capacityEvict p now).max_connections = p.max_connections ∧
    (capacityEvict p now).idle_timeout = p.idle_timeout ∧
    (capacityEvict p now).connections_created = p.connections_created ∧
    (capacityEvict p now).connections_reused = p.connections_reused ∧
    (capacityEvict p now).trades_executed = p.trades_executed ∧
    (capacityEvict p now).errors = p.errors ∧
    (capacityEvict p now).data_mapper = p.data_mapper ∧
    (capacityEvict p now).vendorCalls = p.vendorCalls := by
  unfold capacityEvict
  split <;> simp

theorem createConnection_stable (p : Pool) (a e : String) (cr ok : Bool) (now : Nat) :
    ((createConnection p a e cr ok now).1).max_connections = p.max_connections ∧
    ((createConnection p a e cr ok now).1).idle_timeout = p.idle_timeout ∧
    ((createConnection p a e cr ok now).1).connections_reused = p.connections_reused ∧
    ((createConnection p a e cr ok now).1).trades_executed = p.trades_executed ∧
    ((createConnection p a e cr ok now).1).errors = p.errors ∧
    ((createConnection p a e cr ok now).1).data_mapper = p.data_mapper ∧
    ((createConnection p a e cr ok now).1).vendorCalls = p.vendorCalls := by
  obtain ⟨h1, h2, h3, h4, h5, h6, h7, h8⟩ := capacityEvict_stable p now
  cases cr <;> cases ok <;>
    simp [createConnection, h1, h2, h3, h4, h5, h6, h7, h8]

theorem get_connection_stable (p : Pool) (a e : String) (cr ok : Bool) (now : Nat) :
    ((get_connection p a e cr ok now).1).max_connections = p.max_connections ∧
    ((get_connection p a e cr ok now).1).idle_timeout = p.idle_timeout ∧
    ((get_connection p a e cr ok now).1).trades_executed = p.trades_executed ∧
    ((get_connection p a e cr ok now).1).errors = p.errors ∧
    ((get_connection p a e cr ok now).1).data_mapper = p.data_mapper ∧
    ((get_connection p a e cr ok now).1).vendorCalls = p.vendorCalls := by
  unfold get_connection
  cases hget : dictGet p.connections (a ++ "_" ++ e) with
  | none =>
    obtain ⟨h1, h2, h3, h4, h5, h6, h7⟩ := createConnection_stable p a e cr ok now
    simp [hget, h1, h2, h4, h5, h6, h7]
  | some conn =>
    by_cases hc : conn.is_connected
    · simp [hget, hc]
    · obtain ⟨h1, h2, h3, h4, h5, h6, h7⟩ :=
        createConnection_stable { p with connections := dictDel p.connections (a ++ "_" ++ e) }
          a e cr ok now
      simp [hget, hc, h1, h2, h4, h5, h6, h7]

theorem createConnection_noCreds_snd (p : Pool) (a e : String) (ok : Bool) (now : Nat) :
    (createConnection p a e false ok now).2 =
      Except.ok { mkConn a e now with is_connected := true } := rfl

theorem get_connection_noCreds_snd (p : Pool) (a e : String) (ok : Bool) (now : Nat) :
    (get_connection p a e false ok now).2.isOk = true := by
  unfold get_connection
  cases hget : dictGet p.connections (a ++ "_" ++ e) with
  | none =>
    show (createConnection p a e false ok now).2.isOk = true
    rw [createConnection_noCreds_snd]
    rfl
  | some conn =>
    by_cases hc : conn.is_connected <;>
      simp [hc, createConnection_noCreds_snd, Except.isOk, Except.toBool]

/-- The operations below call `get_connection(account_id, environment)`
with no credentials, which always returns a session and leaves the
error/trade/mapper/vendor-call state untouched. -/
theorem get_connection_noCreds_ok (p : Pool) (a e : String) (ok : Bool) (now : Nat) :
    ∃ p' c, get_connection p a e false ok now = (p', Except.ok c) ∧
      p'.errors = p.errors ∧ p'.trades_executed = p.trades_executed ∧
      p'.data_mapper = p.data_mapper ∧ p'.vendorCalls = p.vendorCalls := by
  obtain ⟨hmax, hidle, htr, herr, hdm, hvc⟩ := get_connection_stable p a e false ok now
  have hok := get_connection_noCreds_snd p a e ok now
  rcases hgc : get_connection p a e false ok now with ⟨p', r⟩
  rw [hgc] at hok htr herr hdm hvc
  cases r with
  | error u => simp [Except.isOk, Except.toBool] at hok
  | ok c => exact ⟨p', c, rfl, herr, htr, hdm, hvc⟩

/-! ### Claim theorems -/

/-- C9: in every pool state `get_stats` reports a reuse fraction equal to
`connections_reused / max(1, connections_created)`, and with zero
creations and zero reuses the fraction is `0` (the `max 1 _` divisor is
never zero, so no division fault can occur). -/
theorem c9_get_stats_reuse (p : Pool) :
    (get_stats p).reuseFraction =
      (p.connections_reused : ℚ) / (max 1 p.connections_created : ℚ) ∧
    (p.connections_created = 0 ∧ p.connections_reused = 0 →
      (get_stats p).reuseFraction = 0) := by
  refine ⟨rfl, ?_⟩
  rintro ⟨h1, h2⟩
  simp [get_stats, h1, h2]

theorem c9_get_stats_reuse_witness :
    (get_stats (mkPool 50 [])).reuseFraction = 0 :=
  (c9_get_stats_reuse (mkPool 50 [])).2 ⟨rfl, rfl⟩

/-- C7: when the vendor amend call of `modify_position` raises, the call
returns `False`, the pool's `errors` counter goes up by exactly one, and
no exception escapes (the embedding is a total function whose only
exception channel is the oracle's `Except`, caught here). -/
theorem c7_modify_position_vendor_failure (p : Pool) (a e pid : String) (now : Nat) :
    (modify_position p a e pid (Except.error ()) now).2 = false ∧
    ((modify_position p a e pid (Except.error ()) now).1).errors = p.errors + 1 := by
  obtain ⟨p', c, hgc, herr, htr, hdm, hvc⟩ := get_connection_noCreds_ok p a e false now
  unfold modify_position
  rw [hgc]
  cases hpi : pyInt pid with
  | none => simp [herr]
  | some v => simp [herr]

theorem c7_modify_position_vendor_failure_witness :
    (modify_position (mkPool 50 []) "A" "demo" "77" (Except.error ()) 3).2 = false ∧
    ((modify_position (mkPool 50 []) "A" "demo" "77" (Except.error ()) 3).1).errors =
      (mkPool 50 []).errors + 1 :=
  c7_modify_position_vendor_failure (mkPool 50 []) "A" "demo" "77" 3

/-- C2: `execute_trade` never raises: on every input the result is either
`success = true` or `success = false` together with an error message; and
when the order's symbol has no mapping entry the result is
`success = false` with error `"Unknown symbol: <symbol>"` and
`trades_executed` does not move. -/
theorem c2_execute_trade_total (p : Pool) (a e : String) (trade : TradeData)
    (send : Except String Nat) (now : Nat) :
    ((execute_trade p a e trade send now).2.success = true ∨
      ((execute_trade p a e trade send now).2.success = false ∧
        ((execute_trade p a e trade send now).2.error).isSome = true)) ∧
    (dictGet p.data_mapper.symbol_mapping trade.symbol = none →
      (execute_trade p a e trade send now).2.success = false ∧
      (execute_trade p a e trade send now).2.error =
        some ("Unknown symbol: " ++ trade.symbol) ∧
      ((execute_trade p a e trade send now).1).trades_executed = p.trades_executed) := by
  obtain ⟨p', c, hgc, herr, htr, hdm, hvc⟩ := get_connection_noCreds_ok p a e false now
  unfold execute_trade
  rw [hgc]
  dsimp only
  cases hsym : dictGet p.data_mapper.symbol_mapping trade.symbol with
  | none =>
    have hmap : map_order_request p'.data_mapper trade =
        Except.error ("Unknown symbol: " ++ trade.symbol) := by
      unfold map_order_request
      rw [hdm, hsym]
    rw [hmap]
    refine ⟨Or.inr ⟨rfl, rfl⟩, fun _ => ⟨rfl, rfl, htr⟩⟩
  | some info =>
    have hmap : map_order_request p'.data_mapper trade =
        Except.ok { symbolId := info.cTraderId, volume := trade.volume * 100 } := by
      unfold map_order_request
      rw [hdm, hsym]
    rw [hmap]
    cases send with
    | ok oid =>
      exact ⟨Or.inl rfl, fun hnone => by simp [hsym] at hnone⟩
    | error msg =>
      exact ⟨Or.inr ⟨rfl, rfl⟩, fun hnone => by simp [hsym] at hnone⟩

theorem c2_execute_trade_total_witness :
    (execute_trade (mkPool 50 []) "A" "demo" ⟨"XAUUSD", 1⟩ (Except.ok 9) 3).2.success = false ∧
    (execute_trade (mkPool 50 []) "A" "demo" ⟨"XAUUSD", 1⟩ (Except.ok 9) 3).2.error =
      some ("Unknown symbol: " ++ "XAUUSD") ∧
    ((execute_trade (mkPool 50 []) "A" "demo" ⟨"XAUUSD", 1⟩ (Except.ok 9) 3).1).trades_executed =
      (mkPool 50 []).trades_executed :=
  (c2_execute_trade_total (mkPool 50 []) "A" "demo" ⟨"XAUUSD", 1⟩ (Except.ok 9) 3).2 rfl

/-! ### Equation lemmas for the three creation outcomes -/

theorem createConnection_creds_ok_eq (p : Pool) (a e : String) (now : Nat) :
    createConnection p a e true true now =
      ({ capacityEvict p now with
           connections := dictSet (capacityEvict p now).connections (a ++ "_" ++ e)
             { mkConn a e now with is_connected := true, connection_count := 1 },
           connections_created := (capacityEvict p now).connections_created + 1 },
       Except.ok { mkConn a e now with is_connected := true, connection_count := 1 }) := rfl

theorem createConnection_creds_fail_eq (p : Pool) (a e : String) (now : Nat) :
    createConnection p a e true false now = (capacityEvict p now, Except.error ()) := rfl

theorem createConnection_noCreds_eq (p : Pool) (a e : String) (ok : Bool) (now : Nat) :
    createConnection p a e false ok now =
      ({ capacityEvict p now with
           connections := dictSet (capacityEvict p now).connections (a ++ "_" ++ e)
             { mkConn a e now with is_connected := true } },
       Except.ok { mkConn a e now with is_connected := true }) := rfl

theorem mem_remove_oldest (conns : List (String × Conn)) (now : Nat) (kc : String × Conn)
    (h : kc ∈ remove_oldest_idle_connection conns now) : kc ∈ conns := by
  unfold remove_oldest_idle_connection at h
  cases hk : oldestKey conns now with
  | none => rw [hk] at h; exact h
  | some k => rw [hk] at h; exact mem_dictDel conns k kc h

theorem dictGet_none_remove_oldest (conns : List (String × Conn)) (now : Nat) (k' : String)
    (h : dictGet conns k' = none) :
    dictGet (remove_oldest_idle_connection conns now) k' = none := by
  unfold remove_oldest_idle_connection
  cases hk : oldestKey conns now with
  | none => exact h
  | some k => exact dictGet_none_dictDel conns k k' h

theorem capacityEvict_mem (p : Pool) (now : Nat) (kc : String × Conn)
    (h : kc ∈ (capacityEvict p now).connections) : kc ∈ p.connections := by
  unfold capacityEvict at h
  split at h
  · exact mem_remove_oldest p.connections now kc h
  · exact h

theorem capacityEvict_get_none (p : Pool) (now : Nat) (k' : String)
    (h : dictGet p.connections k' = none) :
    dictGet (capacityEvict p now).connections k' = none := by
  unfold capacityEvict
  split
  · exact dictGet_none_remove_oldest p.connections now k' h
  · exact h

/-- C4 counterexample: the claim says every session-creating call of
`get_connection` increments `connections_created`, including
credential-less calls.  A credential-less call on a fresh pool creates
and stores a session marked connected, yet the counter stays `0`. -/
theorem c4_counterexample :
    ((get_connection (mkPool 50 []) "A" "demo" false false 1).1).connections_created = 0 ∧
    ((dictGet ((get_connection (mkPool 50 []) "A" "demo" false false 1).1).connections
        "A_demo").map Conn.is_connected) = some true := by decide

/-- C4 (amended): a `get_connection` call for a fresh key with credentials
and a successful handshake increments `connections_created`; a
credential-less call creates and stores a session marked connected
(degraded/offline mode) WITHOUT incrementing the creation counter. -/
theorem c4_creation_counter (p : Pool) (a e : String) (ok : Bool) (now : Nat)
    (hfresh : dictGet p.connections (a ++ "_" ++ e) = none) :
    ((get_connection p a e true true now).1).connections_created =
        p.connections_created + 1 ∧
    ((get_connection p a e false ok now).1).connections_created =
        p.connections_created ∧
    dictGet ((get_connection p a e false ok now).1).connections (a ++ "_" ++ e) =
      some { mkConn a e now with is_connected := true } := by
  obtain ⟨hm, hi, hcr, hru, htx, herr, hdm, hvc⟩ := capacityEvict_stable p now
  unfold get_connection
  rw [hfresh]
  dsimp only
  refine ⟨?_, ?_, ?_⟩
  · rw [createConnection_creds_ok_eq]
    simpa using hcr
  · rw [createConnection_noCreds_eq]
    simpa using hcr
  · rw [createConnection_noCreds_eq]
    exact dictGet_dictSet_self ..

theorem c4_creation_counter_witness :
    ((get_connection (mkPool 3 []) "A" "demo" true true 1).1).connections_created =
        (mkPool 3 []).connections_created + 1 ∧
    ((get_connection (mkPool 3 []) "A" "demo" false false 1).1).connections_created =
        (mkPool 3 []).connections_created ∧
    dictGet ((get_connection (mkPool 3 []) "A" "demo" false false 1).1).connections
        ("A" ++ "_" ++ "demo") = some { mkConn "A" "demo" 1 with is_connected := true } :=
  c4_creation_counter (mkPool 3 []) "A" "demo" false 1 rfl

/-- C5: a `get_connection` call whose key maps to a connected session
returns that same session (with `last_used` refreshed in the map entry as
well, Python mutates the shared object), increments the reuse counter and
changes nothing else — in particular the creation counter; a call whose
key maps to a disconnected session removes the stale entry and stores a
freshly constructed, connected session under the key instead (provided a
credentialed handshake succeeds — a failing one propagates, see C10). -/
theorem c5_get_connection_paths (p : Pool) (a e : String) (cr ok : Bool) (now : Nat)
    (c : Conn) (hget : dictGet p.connections (a ++ "_" ++ e) = some c) :
    (c.is_connected = true →
      get_connection p a e cr ok now =
        ({ p with connections := dictSet p.connections (a ++ "_" ++ e)
                    { c with last_used := now },
                  connections_reused := p.connections_reused + 1 },
         Except.ok { c with last_used := now })) ∧
    (c.is_connected = false → (cr = true → ok = true) →
      ∃ c', (get_connection p a e cr ok now).2 = Except.ok c' ∧
        dictGet ((get_connection p a e cr ok now).1).connections (a ++ "_" ++ e) =
          some c' ∧
        c'.is_connected = true ∧ c'.last_used = now ∧
        c'.positions_cache = [] ∧ c'.error_count = 0 ∧
        ((get_connection p a e cr ok now).1).connections_reused =
          p.connections_reused ∧
        ((get_connection p a e cr ok now).1).connections_created =
          p.connections_created + (if cr then 1 else 0)) := by
  unfold get_connection
  rw [hget]
  dsimp only
  constructor
  · intro hc
    rw [if_pos hc]
  · intro hc hcrok
    rw [if_neg (by simp [hc])]
    obtain ⟨hm, hi, hcr, hru, htx, herr, hdm, hvc⟩ :=
      capacityEvict_stable
        { p with connections := dictDel p.connections (a ++ "_" ++ e) } now
    cases cr with
    | true =>
      have hok : ok = true := hcrok rfl
      subst hok
      rw [createConnection_creds_ok_eq]
      refine ⟨_, rfl, dictGet_dictSet_self .., rfl, rfl, rfl, rfl, ?_, ?_⟩
      · simpa using hru
      · simpa using hcr
    | false =>
      rw [createConnection_noCreds_eq]
      refine ⟨_, rfl, dictGet_dictSet_self .., rfl, rfl, rfl, rfl, ?_, ?_⟩
      · simpa using hru
      · simpa using hcr

theorem c5_get_connection_paths_witness :
    get_connection
        ((get_connection (mkPool 3 []) "A" "demo" false false 1).1) "A" "demo" false false 5 =
      ({ (get_connection (mkPool 3 []) "A" "demo" false false 1).1 with
           connections := dictSet
             ((get_connection (mkPool 3 []) "A" "demo" false false 1).1).connections
             ("A" ++ "_" ++ "demo")
             { mkConn "A" "demo" 1 with is_connected := true, last_used := 5 },
           connections_reused :=
             ((get_connection (mkPool 3 []) "A" "demo" false false 1).1).connections_reused
               + 1 },
       Except.ok { mkConn "A" "demo" 1 with is_connected := true, last_used := 5 }) :=
  (c5_get_connection_paths ((get_connection (mkPool 3 []) "A" "demo" false false 1).1)
    "A" "demo" false false 5 { mkConn "A" "demo" 1 with is_connected := true }
    (by decide)).1 rfl

/-- C10 counterexample: the claim asserts the pool state is unchanged when
a credentialed connect fails.  With `max_connections = 1` and one live
session `A_demo`, a failing credentialed call for `B_demo` first evicts
`A_demo`; the connect failure is not rolled back, so the pool ends empty:
the state did change. -/
theorem c10_counterexample :
    (get_connection ((get_connection (mkPool 1 []) "A" "demo" false false 0).1)
        "B" "demo" true false 5).1.connections = [] ∧
    ((get_connection (mkPool 1 []) "A" "demo" false false 0).1).connections ≠ [] ∧
    (get_connection ((get_connection (mkPool 1 []) "A" "demo" false false 0).1)
        "B" "demo" true false 5).2.isOk = false := by decide

/-- C10 (amended): when a credentialed `get_connection` reaches the
connect attempt (no connected entry exists for the key) and the handshake
fails, the exception propagates, no entry is stored for the key, no
counter moves, and every surviving entry was already in the pool; but the
removals performed before the connect attempt (stale-entry deletion for
the key, LRU eviction at capacity) are not rolled back. -/
theorem c10_connect_failure (p : Pool) (a e : String) (now : Nat)
    (hnd : (p.connections.map Prod.fst).Nodup)
    (hnc : ∀ c, dictGet p.connections (a ++ "_" ++ e) = some c →
      c.is_connected = false) :
    (get_connection p a e true false now).2 = Except.error () ∧
    ((get_connection p a e true false now).1).connections_created =
      p.connections_created ∧
    ((get_connection p a e true false now).1).connections_reused =
      p.connections_reused ∧
    ((get_connection p a e true false now).1).errors = p.errors ∧
    dictGet ((get_connection p a e true false now).1).connections (a ++ "_" ++ e) =
      none ∧
    ∀ kc ∈ ((get_connection p a e true false now).1).connections,
      kc ∈ p.connections := by
  unfold get_connection
  cases hget : dictGet p.connections (a ++ "_" ++ e) with
  | none =>
    dsimp only
    rw [createConnection_creds_fail_eq]
    obtain ⟨hm, hi, hcr, hru, htx, herr, hdm, hvc⟩ := capacityEvict_stable p now
    exact ⟨rfl, hcr, hru, herr, capacityEvict_get_none p now _ hget,
      fun kc hmem => capacityEvict_mem p now kc hmem⟩
  | some c =>
    have hc : c.is_connected = false := hnc c hget
    dsimp only
    rw [if_neg (by simp [hc])]
    rw [createConnection_creds_fail_eq]
    obtain ⟨hm, hi, hcr, hru, htx, herr, hdm, hvc⟩ :=
      capacityEvict_stable
        { p with connections := dictDel p.connections (a ++ "_" ++ e) } now
    refine ⟨rfl, hcr, hru, herr, ?_, ?_⟩
    · exact capacityEvict_get_none _ now _
        (dictGet_dictDel_self p.connections (a ++ "_" ++ e) hnd)
    · intro kc hmem
      exact mem_dictDel p.connections (a ++ "_" ++ e) kc
        (capacityEvict_mem _ now kc hmem)

theorem c10_connect_failure_witness :
    (get_connection (mkPool 1 []) "B" "demo" true false 5).2 = Except.error () ∧
    ((get_connection (mkPool 1 []) "B" "demo" true false 5).1).connections_created =
      (mkPool 1 []).connections_created ∧
    ((get_connection (mkPool 1 []) "B" "demo" true false 5).1).connections_reused =
      (mkPool 1 []).connections_reused ∧
    ((get_connection (mkPool 1 []) "B" "demo" true false 5).1).errors =
      (mkPool 1 []).errors ∧
    dictGet ((get_connection (mkPool 1 []) "B" "demo" true false 5).1).connections
      ("B" ++ "_" ++ "demo") = none ∧
    ∀ kc ∈ ((get_connection (mkPool 1 []) "B" "demo" true false 5).1).connections,
      kc ∈ (mkPool 1 []).connections :=
  c10_connect_failure (mkPool 1 []) "B" "demo" 5 (by decide)
    (fun c h => by simp [mkPool, dictGet] at h)

/-- C6 evaluation at the failing input: `get_positions` fills the cache
with position 12345 under its protobuf *integer* key; the subsequent
`close_position("12345")` succeeds (vendor close ok, returns `True`), yet
the position is still in the session's positions cache, because the
source tests the HTTP *string* id for membership in the integer-keyed
dict, which is always false in Python. -/
theorem c6_close_position_cache_kept :
    (close_position (get_positions (mkPool 50 []) "A" "demo"
        (.ok [⟨12345, 5⟩]) 0).1 "A" "demo" "12345" (.ok ()) 100).2 = true ∧
    ((dictGet (close_position (get_positions (mkPool 50 []) "A" "demo"
          (.ok [⟨12345, 5⟩]) 0).1 "A" "demo" "12345" (.ok ()) 100).1.connections
        "A_demo").map (fun c => dictGet c.positions_cache (PyKey.intKey 12345)))
      = some (some ⟨12345, 5⟩) := by decide

/-- C3 evaluation at the failing trace: positions are fetched from the
vendor at t = 0 ms; an orders query at t = 500 ms refreshes the *shared*
`cache_timestamp`; re-querying positions at t = 1200 ms then serves the
positions cached at t = 0 — 1200 ms old, beyond the 1-second window —
without any vendor call (the vendor-call counter does not move and the
vendor oracle is even set to fail).  By contrast, without the interleaved
orders query the same re-query at t = 1200 ms does attempt a vendor
refresh (counter moves, stale value not served). -/
theorem c3_shared_timestamp_staleness :
    ((get_positions (get_orders (get_positions (mkPool 50 []) "A" "demo"
          (.ok [⟨1, 10⟩]) 0).1 "A" "demo" (.ok [⟨7, 20⟩]) 500).1
        "A" "demo" (.error ()) 1200).2 = [⟨1, 10⟩] ∧
      (get_positions (get_orders (get_positions (mkPool 50 []) "A" "demo"
          (.ok [⟨1, 10⟩]) 0).1 "A" "demo" (.ok [⟨7, 20⟩]) 500).1
        "A" "demo" (.error ()) 1200).1.vendorCalls =
        (get_orders (get_positions (mkPool 50 []) "A" "demo"
          (.ok [⟨1, 10⟩]) 0).1 "A" "demo" (.ok [⟨7, 20⟩]) 500).1.vendorCalls) ∧
    ((get_positions (get_positions (mkPool 50 []) "A" "demo"
          (.ok [⟨1, 10⟩]) 0).1 "A" "demo" (.error ()) 1200).2 = [] ∧
      (get_positions (get_positions (mkPool 50 []) "A" "demo"
          (.ok [⟨1, 10⟩]) 0).1 "A" "demo" (.error ()) 1200).1.vendorCalls =
        (get_positions (mkPool 50 []) "A" "demo"
          (.ok [⟨1, 10⟩]) 0).1.vendorCalls + 1) := by decide

/-! ### Reverse-mapping fold lemmas for the symbol round trip (C8) -/

theorem revFold_get_untouched (config : List (String × SymbolInfo))
    (acc : List (Int × (SymbolInfo × String))) (i : Int)
    (h : ∀ kv ∈ config, kv.2.cTraderId ≠ i) :
    dictGet (config.foldl (fun rev kv => dictSet rev kv.2.cTraderId (kv.2, kv.1)) acc) i
      = dictGet acc i := by
  induction config generalizing acc with
  | nil => rfl
  | cons kv rest ih =>
    rw [List.foldl_cons]
    rw [ih _ (fun kv' hm => h kv' (List.mem_cons_of_mem _ hm))]
    exact dictGet_dictSet_ne _ _ _ _
      (fun heq => h kv (List.mem_cons_self ..) heq.symm)

theorem revFold_get_mem (config : List (String × SymbolInfo))
    (acc : List (Int × (SymbolInfo × String))) (S : String) (info : SymbolInfo)
    (hnd : (config.map (fun kv => kv.2.cTraderId)).Nodup)
    (hmem : (S, info) ∈ config) :
    dictGet (config.foldl (fun rev kv => dictSet rev kv.2.cTraderId (kv.2, kv.1)) acc)
        info.cTraderId = some (info, S) := by
  induction config generalizing acc with
  | nil => cases hmem
  | cons kv rest ih =>
    rw [List.foldl_cons]
    simp only [List.map_cons, List.nodup_cons] at hnd
    rcases List.mem_cons.1 hmem with h1 | h1
    · subst h1
      rw [revFold_get_untouched rest _ _
        (fun kv' hm heq =>
          hnd.1 (by rw [← heq]; exact List.mem_map_of_mem _ hm))]
      exact dictGet_dictSet_self ..
    · exact ih _ hnd.2 h1

/-- C8: neutral→vendor→neutral is the identity on every configured
symbol.  The config resource `symbols.json` is not part of the repository
snapshot; per the spec the mapping is keyed bidirectionally, so the
config is modelled as any dict (distinct neutral symbols) whose vendor
ids are also pairwise distinct, exactly the data `load_symbol_mapping`
consumes. -/
theorem c8_symbol_round_trip (config : List (String × SymbolInfo)) (S : String)
    (info : SymbolInfo)
    (hkeys : (config.map Prod.fst).Nodup)
    (hids : (config.map (fun kv => kv.2.cTraderId)).Nodup)
    (hmem : (S, info) ∈ config) :
    get_symbol_mapping (load_symbol_mapping config) S = some info ∧
    reverse_symbol (load_symbol_mapping config) info.cTraderId = some S := by
  constructor
  · exact mem_dictGet_of_nodup config S info hkeys hmem
  · unfold reverse_symbol load_symbol_mapping
    rw [revFold_get_mem config [] S info hids hmem]
    rfl

theorem c8_symbol_round_trip_witness :
    get_symbol_mapping
        (load_symbol_mapping [("EURUSD", ⟨1, 10⟩), ("GBPUSD", ⟨2, 10⟩)]) "EURUSD"
      = some ⟨1, 10⟩ ∧
    reverse_symbol
        (load_symbol_mapping [("EURUSD", ⟨1, 10⟩), ("GBPUSD", ⟨2, 10⟩)]) 1
      = some "EURUSD" :=
  c8_symbol_round_trip [("EURUSD", ⟨1, 10⟩), ("GBPUSD", ⟨2, 10⟩)] "EURUSD" ⟨1, 10⟩
    (by decide) (by decide) (by decide)

/-! ### Capacity invariant machinery (C1) -/

theorem nodupKeys_remove_oldest (conns : List (String × Conn)) (now : Nat)
    (h : (conns.map Prod.fst).Nodup) :
    ((remove_oldest_idle_connection conns now).map Prod.fst).Nodup := by
  unfold remove_oldest_idle_connection
  cases oldestKey conns now with
  | none => exact h
  | some k => exact nodupKeys_dictDel conns k h

theorem capacityEvict_nodup (p : Pool) (now : Nat)
    (h : (p.connections.map Prod.fst).Nodup) :
    ((capacityEvict p now).connections.map Prod.fst).Nodup := by
  unfold capacityEvict
  split
  · exact nodupKeys_remove_oldest p.connections now h
  · exact h

theorem capacityEvict_length_lt (p : Pool) (now : Nat)
    (hlen : p.connections.length ≤ p.max_connections)
    (hmax : 1 ≤ p.max_connections)
    (hall : ∀ kc ∈ p.connections, kc.2.last_used < now) :
    (capacityEvict p now).connections.length < p.max_connections := by
  unfold capacityEvict
  split
  · rename_i hge
    have hne : p.connections ≠ [] := by
      intro h
      rw [h] at hge
      simp at hge
      omega
    obtain ⟨k, c, hmem, hmin, heq, hlen1⟩ := remove_oldest_spec p.connections now hne hall
    dsimp only
    omega
  · rename_i hlt
    omega

theorem createConnection_wf (p : Pool) (a e : String) (cr ok : Bool) (now : Nat)
    (hnd : (p.connections.map Prod.fst).Nodup)
    (hall : ∀ kc ∈ p.connections, kc.2.last_used < now)
    (hlen : p.connections.length ≤ p.max_connections)
    (hmax : 1 ≤ p.max_connections) :
    (((createConnection p a e cr ok now).1).connections.map Prod.fst).Nodup ∧
    (∀ kc ∈ ((createConnection p a e cr ok now).1).connections,
      kc.2.last_used ≤ now) ∧
    ((createConnection p a e cr ok now).1).connections.length ≤ p.max_connections := by
  have hlt := capacityEvict_length_lt p now hlen hmax hall
  have hnd' := capacityEvict_nodup p now hnd
  have hall' : ∀ kc ∈ (capacityEvict p now).connections, kc.2.last_used ≤ now :=
    fun kc hm => le_of_lt (hall kc (capacityEvict_mem p now kc hm))
  cases cr with
  | true =>
    cases ok with
    | true =>
      rw [createConnection_creds_ok_eq]
      refine ⟨nodupKeys_dictSet _ _ _ hnd', ?_, ?_⟩
      · intro kc hm
        rcases mem_dictSet _ _ _ kc hm with h1 | h1
        · rw [h1]; simp [mkConn]
        · exact hall' kc h1
      · dsimp only
        exact le_trans (length_dictSet_le _ _ _) (by omega)
    | false =>
      rw [createConnection_creds_fail_eq]
      exact ⟨hnd', hall', le_of_lt hlt⟩
  | false =>
    rw [createConnection_noCreds_eq]
    refine ⟨nodupKeys_dictSet _ _ _ hnd', ?_, ?_⟩
    · intro kc hm
      rcases mem_dictSet _ _ _ kc hm with h1 | h1
      · rw [h1]; simp [mkConn]
      · exact hall' kc h1
    · dsimp only
      exact le_trans (length_dictSet_le _ _ _) (by omega)

theorem get_connection_wf (p : Pool) (a e : String) (cr ok : Bool) (now : Nat)
    (hnd : (p.connections.map Prod.fst).Nodup)
    (hall : ∀ kc ∈ p.connections, kc.2.last_used < now)
    (hlen : p.connections.length ≤ p.max_connections)
    (hmax : 1 ≤ p.max_connections) :
    (((get_connection p a e cr ok now).1).connections.map Prod.fst).Nodup ∧
    (∀ kc ∈ ((get_connection p a e cr ok now).1).connections,
      kc.2.last_used ≤ now) ∧
    ((get_connection p a e cr ok now).1).connections.length ≤ p.max_connections := by
  unfold get_connection
  cases hget : dictGet p.connections (a ++ "_" ++ e) with
  | none =>
    dsimp only
    exact createConnection_wf p a e cr ok now hnd hall hlen hmax
  | some c =>
    dsimp only
    by_cases hc : c.is_connected
    · rw [if_pos hc]
      refine ⟨nodupKeys_dictSet _ _ _ hnd, ?_, ?_⟩
      · intro kc hm
        rcases mem_dictSet _ _ _ kc hm with h1 | h1
        · rw [h1]
        · exact le_of_lt (hall kc h1)
      · have hsame := length_dictSet p.connections (a ++ "_" ++ e)
          { c with last_used := now }
        rw [hget] at hsame
        simp at hsame
        dsimp only
        omega
    · rw [if_neg (by simp [hc])]
      have hwf := createConnection_wf
        { p with connections := dictDel p.connections (a ++ "_" ++ e) } a e cr ok now
        (nodupKeys_dictDel p.connections _ hnd)
        (fun kc hm => hall kc (mem_dictDel p.connections _ kc hm))
        (le_trans (length_dictDel_le p.connections _) hlen)
        hmax
      exact hwf

theorem runGetConnections_wf (reqs : List Request) (p : Pool) (t : Nat)
    (hnd : (p.connections.map Prod.fst).Nodup)
    (hall : ∀ kc ∈ p.connections, kc.2.last_used < t)
    (hlen : p.connections.length ≤ p.max_connections)
    (hmax : 1 ≤ p.max_connections)
    (htimes : timesOk t reqs = true) :
    (runGetConnections p reqs).connections.length ≤ p.max_connections := by
  induction reqs generalizing p t with
  | nil => exact hlen
  | cons r rs ih =>
    simp only [timesOk, Bool.and_eq_true, decide_eq_true_eq] at htimes
    obtain ⟨ht, hts⟩ := htimes
    obtain ⟨h1, h2, h3⟩ := get_connection_wf p r.account_id r.environment
      r.hasCreds r.connectOk r.time hnd
      (fun kc hm => lt_of_lt_of_le (hall kc hm) ht) hlen hmax
    obtain ⟨hm1, hm2, hm3, hm4, hm5, hm6⟩ := get_connection_stable p r.account_id
      r.environment r.hasCreds r.connectOk r.time
    have hstep := ih
      ((get_connection p r.account_id r.environment r.hasCreds r.connectOk r.time).1)
      (r.time + 1) h1
      (fun kc hm => Nat.lt_succ_of_le (h2 kc hm))
      (by rw [hm1]; exact h3)
      (by rw [hm1]; exact hmax)
      hts
    rw [hm1] at hstep
    exact hstep

/-- C1 counterexample: a pool configured with `max_connections = 0`
admits its first session anyway — `_remove_oldest_idle_connection` finds
nothing to evict in an empty dict and the new session is inserted
regardless, so the session count exceeds the configured maximum. -/
theorem c1_counterexample :
    ((get_connection (mkPool 0 []) "A" "demo" false false 1).1).connections.length = 1 ∧
    ((get_connection (mkPool 0 []) "A" "demo" false false 1).1).max_connections = 0 := by
  decide

/-- C1 (amended): for a pool configured with `max_connections = N ≥ 1`:
(a) along every trace of `get_connection` calls whose call times are
non-decreasing and strictly after all earlier activity, starting from a
well-formed pool, the number of live sessions never exceeds `N`; and
(b) a call whose key is not in the dict, arriving when the dict holds
exactly `N` sessions whose last-used stamps are pairwise distinct and
strictly before `now`, evicts exactly one session — the one with the
oldest `last_used` — before inserting the new one, ending with `N`
sessions again.  For `N = 0` the claimed bound fails: see
`c1_counterexample`. -/
theorem c1_pool_capacity (p : Pool) (t : Nat) (reqs : List Request)
    (hmax : 1 ≤ p.max_connections)
    (hnd : (p.connections.map Prod.fst).Nodup)
    (hall : ∀ kc ∈ p.connections, kc.2.last_used < t)
    (hlen : p.connections.length ≤ p.max_connections)
    (htimes : timesOk t reqs = true) :
    (runGetConnections p reqs).connections.length ≤ p.max_connections ∧
    ∀ a e cr ok now,
      dictGet p.connections (a ++ "_" ++ e) = none →
      p.connections.length = p.max_connections →
      t ≤ now →
      (p.connections.map (fun kc => kc.2.last_used)).Nodup →
      (cr = true → ok = true) →
      ∃ kmin cmin, (kmin, cmin) ∈ p.connections ∧
        (∀ kc ∈ p.connections, kc.1 ≠ kmin →
          cmin.last_used < kc.2.last_used) ∧
        ∃ cnew,
          ((get_connection p a e cr ok now).1).connections =
            dictSet (dictDel p.connections kmin) (a ++ "_" ++ e) cnew ∧
          ((get_connection p a e cr ok now).1).connections.length =
            p.max_connections := by
  refine ⟨runGetConnections_wf reqs p t hnd hall hlen hmax htimes, ?_⟩
  intro a e cr ok now hfresh hfull ht hdistinct hcrok
  have hallnow : ∀ kc ∈ p.connections, kc.2.last_used < now :=
    fun kc hm => lt_of_lt_of_le (hall kc hm) ht
  have hne : p.connections ≠ [] := by
    intro h
    rw [h] at hfull
    simp at hfull
    omega
  obtain ⟨kmin, cmin, hmem, hmin, heq, hlen1⟩ :=
    remove_oldest_spec p.connections now hne hallnow
  have hminstrict : ∀ kc ∈ p.connections, kc.1 ≠ kmin →
      cmin.last_used < kc.2.last_used := by
    intro kc hm hk
    rcases lt_or_eq_of_le (hmin kc hm) with h | h
    · exact h
    · have hkc := List.inj_on_of_nodup_map hdistinct hmem hm h
      exact absurd (congrArg Prod.fst hkc).symm hk
  have hcap : capacityEvict p now =
      { p with connections := dictDel p.connections kmin } := by
    unfold capacityEvict
    rw [if_pos (by omega)]
    rw [heq]
  have hdelget : dictGet (dictDel p.connections kmin) (a ++ "_" ++ e) = none :=
    dictGet_none_dictDel p.connections kmin _ hfresh
  have hdellen : (dictDel p.connections kmin).length + 1 = p.connections.length :=
    length_dictDel_isSome p.connections kmin
      (dictGet_isSome_of_mem_keys _ _ (List.mem_map_of_mem Prod.fst hmem))
  refine ⟨kmin, cmin, hmem, hminstrict, ?_⟩
  unfold get_connection
  rw [hfresh]
  dsimp only
  cases cr with
  | true =>
    have hok := hcrok rfl
    subst hok
    rw [createConnection_creds_ok_eq]
    dsimp only
    rw [hcap]
    refine ⟨_, rfl, ?_⟩
    dsimp only
    rw [length_dictSet, hdelget]
    simp
    omega
  | false =>
    rw [createConnection_noCreds_eq]
    dsimp only
    rw [hcap]
    refine ⟨_, rfl, ?_⟩
    dsimp only
    rw [length_dictSet, hdelget]
    simp
    omega

theorem c1_pool_capacity_witness :
    (runGetConnections ((get_connection (mkPool 1 []) "A" "demo" false false 0).1)
        [{ account_id := "B", environment := "demo", hasCreds := false,
           connectOk := false, time := 1 }]).connections.length ≤
      ((get_connection (mkPool 1 []) "A" "demo" false false 0).1).max_connections ∧
    ∃ kmin cmin,
      (kmin, cmin) ∈
        ((get_connection (mkPool 1 []) "A" "demo" false false 0).1).connections ∧
      (∀ kc ∈ ((get_connection (mkPool 1 []) "A" "demo" false false 0).1).connections,
        kc.1 ≠ kmin → cmin.last_used < kc.2.last_used) ∧
      ∃ cnew,
        ((get_connection ((get_connection (mkPool 1 []) "A" "demo" false false 0).1)
            "B" "demo" false false 1).1).connections =
          dictSet
            (dictDel
              ((get_connection (mkPool 1 []) "A" "demo" false false 0).1).connections
              kmin)
            ("B" ++ "_" ++ "demo") cnew ∧
        ((get_connection ((get_connection (mkPool 1 []) "A" "demo" false false 0).1)
            "B" "demo" false false 1).1).connections.length =
          ((get_connection (mkPool 1 []) "A" "demo" false false 0).1).max_connections := by
  have h := c1_pool_capacity ((get_connection (mkPool 1 []) "A" "demo" false false 0).1)
    1 [{ account_id := "B", environment := "demo", hasCreds := false,
         connectOk := false, time := 1 }]
    (by decide) (by decide) (by decide) (by decide) (by decide)
  exact ⟨h.1, h.2 "B" "demo" false false 1 (by decide) (by decide) (by decide)
    (by decide) (fun hh => absurd hh (by decide))⟩

end FxTrueUp
